import Mathlib

/-!
Verification development for the TNKR interactive 3D component explorer.

The development shallowly embeds the interaction core of the repository:

* `SystemViewer` (src/SystemViewer.js, the copy whose class body spans the
  claim line ranges): the explode/highlight controller.  Its mutable JS
  state (Maps, Sets, the label DOM elements, the OrbitControls autoRotate
  flag) is modelled by the `Viewer` structure, and each public method by a
  `Viewer → ... → Viewer` function.
* `groupParts` and `getSearchScore` (src/viewer.js): pure data transforms.

Modelling conventions, chosen to stay observationally faithful:

* JS `Map` is an insertion-ordered association list; `Map.set` updates an
  existing key in place and otherwise appends (`mapSet`).
* JS `Set` is an insertion-ordered duplicate-free list (`setAdd`/`setDel`).
* Strings handled by the search/grouping code are `List Char` (Lean's
  `String` primitives do not reduce in the kernel); viewer part ids stay
  `String`.  `Char.toLowerCase`/`\s`/`\d` are restricted to ASCII, which
  covers every string the configuration contains.
* Three.js materials are modelled by their visible appearance: a base
  identifier plus an optional emissive overlay (color, intensity in
  thousandths).  `Material.clone()` is the identity on such values.
* A label DOM element is modelled by a fresh numeric id: `partLabels` is
  the tracking map, `domLabels` the children of the viewer container in
  insertion order.
* GSAP animations (`expand`/`collapse`) are modelled by their end state;
  camera geometry, lighting, raycasting and other render-only concerns
  are outside every claim and are not modelled.
* `this.sidebarHighlightedParts` is created lazily in the source
  (`undefined` until first use); every access is guarded
  (`?.has`, `if (set)`, `!set || set.size === 0`), so the model uses an
  initially empty list, which is observationally identical.
-/

/-! ## Association-list and JS-set primitives -/

/-- Lookup in an association list (JS `Map.get`). -/
def aget {κ β : Type} [DecidableEq κ] : List (κ × β) → κ → Option β
  | [], _ => none
  | e :: rest, k => if e.1 = k then some e.2 else aget rest k

/-- JS `Map.set`: update the entry in place when the key exists, else append. -/
def mapSet {κ β : Type} [DecidableEq κ] (m : List (κ × β)) (k : κ) (v : β) :
    List (κ × β) :=
  if (aget m k).isSome then
    m.map (fun e => if e.1 = k then (k, v) else e)
  else m ++ [(k, v)]

/-- JS `Map.delete`. -/
def mapDel {κ β : Type} [DecidableEq κ] : List (κ × β) → κ → List (κ × β)
  | [], _ => []
  | e :: rest, k => if e.1 = k then mapDel rest k else e :: mapDel rest k

/-- Update the value stored under a key (models mutating the object a JS
`Map` entry points to). -/
def mapUpd {κ β : Type} [DecidableEq κ] : List (κ × β) → κ → (β → β) → List (κ × β)
  | [], _, _ => []
  | e :: rest, k, f =>
    if e.1 = k then (e.1, f e.2) :: mapUpd rest k f else e :: mapUpd rest k f

/-- JS `Set.add` (no duplicates, insertion order kept). -/
def setAdd {α : Type} [DecidableEq α] (s : List α) (x : α) : List α :=
  if x ∈ s then s else s ++ [x]

/-- JS `Set.delete`. -/
def setDel {α : Type} [DecidableEq α] : List α → α → List α
  | [], _ => []
  | y :: rest, x => if y = x then setDel rest x else y :: setDel rest x

/-- Remove one element (a DOM child being detached by `element.remove()`). -/
def listErase {α : Type} [DecidableEq α] : List α → α → List α
  | [], _ => []
  | y :: rest, x => if y = x then rest else y :: listErase rest x

/-! ## Data model (src/SystemViewer.js state and configuration) -/

/-- Three.js material, by visible appearance: base appearance id and optional
emissive overlay (color, intensity in thousandths); `clone()` is the
identity on appearances. -/
structure Material where
  base : Nat
  emissive : Option (Nat × Nat)
deriving DecidableEq, Repr

/-- HIGHLIGHT_COLOR = 0xffcc00. -/
def HIGHLIGHT_COLOR : Nat := 0xffcc00

/-- HIGHLIGHT_INTENSITY = 0.15, stored in thousandths. -/
def HIGHLIGHT_INTENSITY_MILLI : Nat := 150

/-- Clone of a material with the yellow emissive highlight applied
(`highlightMat` in `applyHighlight`/`highlightPart`). -/
def highlightedMat (orig : Material) : Material :=
  { orig with emissive := some (HIGHLIGHT_COLOR, HIGHLIGHT_INTENSITY_MILLI) }

/-- A 3D position (`THREE.Vector3`), with exact rational coordinates. -/
structure Vec3 where
  x : ℚ
  y : ℚ
  z : ℚ
deriving DecidableEq, Repr

/-- A mesh node: name, live position, live material, and the
`userData.originalMaterial` cache. -/
structure Mesh where
  name : String
  position : Vec3
  material : Material
  originalMaterial : Option Material
deriving DecidableEq, Repr

/-- Per-part expand offset from `expandConfig` (`{x?, y?, z?}`). -/
structure Offset where
  x : Option ℚ
  y : Option ℚ
  z : Option ℚ
deriving DecidableEq, Repr

/-- A configured part (`{id, name, description}` in src/data/systems.js). -/
structure PartDef where
  id : String
  name : String
  description : String
deriving DecidableEq, Repr

/-- The slice of a system configuration the viewer reads
(`systemConfig.parts`, `systemConfig.expandConfig`); `none` models an
absent (falsy) field. -/
structure Config where
  parts : Option (List PartDef)
  expandConfig : Option (List (String × Offset))
deriving DecidableEq, Repr

/-- The `SystemViewer` state (constructor fields plus
`controls.autoRotate`, the scene's model list and the label DOM). -/
structure Viewer where
  parts : List (String × Mesh)
  originalPositions : List (String × Vec3)
  isExpanded : Bool
  highlightedParts : List String
  sidebarHighlightedParts : List String
  partLabels : List (String × Nat)
  domLabels : List Nat
  autoRotateEnabled : Bool
  controlsAutoRotate : Bool
  systemConfig : Option Config
  model : Option Nat
  sceneModels : List Nat
  nextLabelId : Nat

/-- Viewer state right after `constructor`/`init`: empty registries, no
model, auto-rotation preference and live rotation both on. -/
def initViewer : Viewer :=
  { parts := []
    originalPositions := []
    isExpanded := false
    highlightedParts := []
    sidebarHighlightedParts := []
    partLabels := []
    domLabels := []
    autoRotateEnabled := true
    controlsAutoRotate := true
    systemConfig := none
    model := none
    sceneModels := []
    nextLabelId := 0 }

/-! ## SystemViewer operations (src/SystemViewer.js) -/

/-- Update the mesh object stored under a part name (JS mutates the mesh the
`parts` map points to; nothing else holds a mesh reference). -/
def updateMeshAt (v : Viewer) (name : String) (f : Mesh → Mesh) : Viewer :=
  { v with parts := mapUpd v.parts name f }

/-- createPartLabel: build a fresh label element, append it to the viewer
container, and track it under the part name (overwriting any previous
tracking entry without detaching the old element).  The label's display
text is looked up in `systemConfig.parts` in the source; no claimed state
reads it, so the element is modelled by its id alone. -/
def createPartLabel (v : Viewer) (partName : String) : Viewer :=
  { v with
    partLabels := mapSet v.partLabels partName v.nextLabelId
    domLabels := v.domLabels ++ [v.nextLabelId]
    nextLabelId := v.nextLabelId + 1 }

/-- removePartLabel: detach and untrack the label element tracked under the
part name, if any. -/
def removePartLabel (v : Viewer) (partName : String) : Viewer :=
  match aget v.partLabels partName with
  | some l =>
    { v with
      domLabels := listErase v.domLabels l
      partLabels := mapDel v.partLabels partName }
  | none => v

/-- applyHighlight: cache `userData.originalMaterial` (a clone of the
current material) if absent, then install a highlight clone of the cached
original.  Formulated on the mesh value. -/
def applyHighlightMesh (m : Mesh) : Mesh :=
  let orig := m.originalMaterial.getD m.material
  { m with originalMaterial := some orig, material := highlightedMat orig }

/-- Restore a mesh's material from the `userData.originalMaterial` cache
when one exists (the unhighlight assignment guarded by
`if (part.userData.originalMaterial)`). -/
def restoreMat (m : Mesh) : Mesh :=
  match m.originalMaterial with
  | some om => { m with material := om }
  | none => m

/-- togglePartHighlight: invoked with the clicked mesh; `partName` is that
mesh's name (meshes are registered under their name).
`syncSidebarSelection` only touches sidebar DOM classes and is outside the
modelled state. -/
def togglePartHighlight (v : Viewer) (partName : String) : Viewer :=
  if partName ∈ v.highlightedParts ∨ partName ∈ v.sidebarHighlightedParts then
    -- unhighlight branch
    let v1 := updateMeshAt v partName restoreMat
    let v2 := { v1 with highlightedParts := setDel v1.highlightedParts partName }
    let v3 := removePartLabel v2 partName
    { v3 with sidebarHighlightedParts := setDel v3.sidebarHighlightedParts partName }
  else
    -- highlight branch
    let v1 := updateMeshAt v partName applyHighlightMesh
    let v2 := { v1 with highlightedParts := setAdd v1.highlightedParts partName }
    createPartLabel v2 partName

/-- Body of the `ids.forEach` loop of highlightPart (the sidebar highlight
path).  Loaded meshes always carry a material, so `part && part.material`
reduces to the registry lookup succeeding. -/
def highlightPartStep (v : Viewer) (partId : String) : Viewer :=
  match aget v.parts partId with
  | some _ =>
    let v1 := updateMeshAt v partId applyHighlightMesh
    let v2 := { v1 with
      sidebarHighlightedParts := setAdd v1.sidebarHighlightedParts partId }
    createPartLabel v2 partId
  | none => v

/-- highlightPart: highlight each resolvable id from the sidebar, then
unconditionally pause auto-rotation (`controls.autoRotate = false`).
A single-string argument is wrapped into a one-element array by the
source, so the model takes the array form. -/
def highlightPart (v : Viewer) (partIds : List String) : Viewer :=
  let v1 := partIds.foldl highlightPartStep v
  { v1 with controlsAutoRotate := false }

/-- Body of the `ids.forEach` loop of unhighlightPart (the primary
implementation, around line 700). -/
def unhighlightPartStep (v : Viewer) (partId : String) : Viewer :=
  let v1 := updateMeshAt v partId restoreMat
  let v2 := { v1 with
    sidebarHighlightedParts := setDel v1.sidebarHighlightedParts partId
    highlightedParts := setDel v1.highlightedParts partId }
  removePartLabel v2 partId

/-- unhighlightPart: restore each id's original material, drop it from both
provenance sets, remove its label; resume rotation (to the stored
preference) only when both sets ended up empty. -/
def unhighlightPart (v : Viewer) (partIds : List String) : Viewer :=
  let v1 := partIds.foldl unhighlightPartStep v
  if v1.sidebarHighlightedParts = [] ∧ v1.highlightedParts = [] then
    { v1 with controlsAutoRotate := v1.autoRotateEnabled }
  else v1

/-- clearAllHighlights invokes `this.unhighlightPart(part)` with the MESH
OBJECT where unhighlightPart expects part-id strings.  Inside that call
`parts.get(mesh)`, `sidebarHighlightedParts.delete(mesh)`,
`highlightedParts.delete(mesh)` and `partLabels.get(mesh)` all miss (the
keys are strings), so the body is a no-op and only the final auto-rotate
check can act. -/
def unhighlightPartOnMeshArg (v : Viewer) : Viewer :=
  if v.sidebarHighlightedParts = [] ∧ v.highlightedParts = [] then
    { v with controlsAutoRotate := v.autoRotateEnabled }
  else v

/-- One iteration of the clearAllHighlights forEach. -/
def clearStep (v : Viewer) (partName : String) : Viewer :=
  let v1 := if (aget v.parts partName).isSome then unhighlightPartOnMeshArg v else v
  removePartLabel v1 partName

/-- clearAllHighlights: iterate the scene-click set (passing each MESH to
unhighlightPart, see `unhighlightPartOnMeshArg`), remove each tracked
label, then clear the scene-click set.  The sidebar set is not visited. -/
def clearAllHighlights (v : Viewer) : Viewer :=
  let v1 := v.highlightedParts.foldl clearStep v
  { v1 with highlightedParts := [] }

/-- The `this.systemConfig?.expandConfig` access. -/
def expandCfg (v : Viewer) : Option (List (String × Offset)) :=
  v.systemConfig.bind Config.expandConfig

/-- Interpolated position: `original + (offset.axis || 0) * factor`
componentwise.  A configured axis value of 0 is falsy in JS and yields 0
through the `|| 0` fallback, the same value `getD 0` produces. -/
def explodedPos (orig : Vec3) (off : Offset) (factor : ℚ) : Vec3 :=
  { x := orig.x + (off.x.getD 0) * factor
    y := orig.y + (off.y.getD 0) * factor
    z := orig.z + (off.z.getD 0) * factor }

/-- setExplosionAmount: early-return when `expandConfig` is falsy; else set
`isExpanded := percent > 0`, set live rotation from the stored preference,
move every part that has both an offset and a recorded original position,
and clear highlights when percent is exactly 0. -/
def setExplosionAmount (v : Viewer) (percent : ℚ) : Viewer :=
  match expandCfg v with
  | none => v
  | some ec =>
    let factor := percent / 100
    let v1 := { v with
      isExpanded := decide (0 < percent)
      controlsAutoRotate := v.autoRotateEnabled }
    let v2 := { v1 with parts := v1.parts.map (fun e =>
      match aget ec e.1, aget v.originalPositions e.1 with
      | some off, some orig => (e.1, { e.2 with position := explodedPos orig off factor })
      | _, _ => e) }
    if percent = 0 then clearAllHighlights v2 else v2

/-- expand: set `isExpanded` immediately and animate every offset-bearing
part to its fully exploded position (GSAP animation modelled by its end
state; `if (offset.axis)` skips falsy axes, which adds 0 exactly as the
`getD 0` form does). -/
def expand (v : Viewer) : Viewer :=
  match expandCfg v with
  | none => v
  | some ec =>
    let v1 := { v with isExpanded := true }
    { v1 with parts := v1.parts.map (fun e =>
      match aget ec e.1, aget v.originalPositions e.1 with
      | some off, some orig => (e.1, { e.2 with position := explodedPos orig off 1 })
      | _, _ => e) }

/-- collapse: no-op unless expanded; else reset `isExpanded`, set live
rotation from the preference, clear all highlights, and animate every part
with a recorded original position back to it (animation end state). -/
def collapse (v : Viewer) : Viewer :=
  if v.isExpanded then
    let v1 := { v with isExpanded := false, controlsAutoRotate := v.autoRotateEnabled }
    let v2 := clearAllHighlights v1
    { v2 with parts := v2.parts.map (fun e =>
      match aget v2.originalPositions e.1 with
      | some orig => (e.1, { e.2 with position := orig })
      | none => e) }
  else v

/-- setAutoRotate: store the preference AND set the live rotation flag,
unconditionally. -/
def setAutoRotate (v : Viewer) (enabled : Bool) : Viewer :=
  { v with autoRotateEnabled := enabled, controlsAutoRotate := enabled }

/-- loadModel success path: drop the previous model from the scene, store
the new model and config, and register every mesh of the new scene graph
(name, position snapshot) via `Map.set`.  Camera framing, centering and
logging touch no claimed state.  `modelId` identifies the loaded
`gltf.scene`; `meshes` are its mesh descendants in traversal order. -/
def loadModel (v : Viewer) (modelId : Nat) (meshes : List Mesh) (config : Config) :
    Viewer :=
  let scene0 := match v.model with
    | some m => listErase v.sceneModels m
    | none => v.sceneModels
  let v1 := { v with
    sceneModels := scene0 ++ [modelId]
    model := some modelId
    systemConfig := some config }
  meshes.foldl (fun w child =>
    { w with
      parts := mapSet w.parts child.name child
      originalPositions := mapSet w.originalPositions child.name child.position }) v1

/-! ## Part grouping and search (src/viewer.js) -/

/-- ASCII lowercase conversion of one character (`String.toLowerCase`;
the configuration strings are ASCII). -/
def lowerChar (c : Char) : Char :=
  if 65 ≤ c.toNat ∧ c.toNat ≤ 90 then Char.ofNat (c.toNat + 32) else c

/-- Lowercase a whole string. -/
def lowerStr (s : List Char) : List Char := s.map lowerChar

/-- Whitespace as matched by the regexes in viewer.js (ASCII forms). -/
def isWSChar (c : Char) : Bool := c = ' ' || c = '\t' || c = '\n' || c = '\r'

/-- Decimal digit as matched by the grouping regex. -/
def isDigitChar (c : Char) : Bool := 48 ≤ c.toNat && c.toNat ≤ 57

/-- Worker for `splitWS`; the flag records whether we are inside a
separator run (so a run of whitespace yields a single split point). -/
def splitWSAux : List Char → Bool → List Char → List (List Char)
  | [], true, _ => [[]]
  | [], false, acc => [acc.reverse]
  | c :: rest, true, _ =>
    if isWSChar c then splitWSAux rest true []
    else splitWSAux rest false [c]
  | c :: rest, false, acc =>
    if isWSChar c then acc.reverse :: splitWSAux rest true []
    else splitWSAux rest false (c :: acc)

/-- JS `name.split(/\s+/)`: split on maximal whitespace runs; a leading run
yields an empty first element and a trailing run an empty last element. -/
def splitWS (l : List Char) : List (List Char) := splitWSAux l false []

/-- The fuzzy-match loop of getSearchScore: walk the name once, advancing
through the query on each matching character; succeeds when the query is
exhausted. -/
def greedySubseq : List Char → List Char → Bool
  | _, [] => true
  | [], _ :: _ => false
  | c :: cs, q :: qs => if c = q then greedySubseq cs qs else greedySubseq cs (q :: qs)

/-- JS `name.includes(query)`: contiguous substring test. -/
def strIncludes (q : List Char) : List Char → Bool
  | [] => List.isPrefixOf q []
  | c :: rest => List.isPrefixOf q (c :: rest) || strIncludes q rest

/-- getSearchScore (src/viewer.js lines 369-397): lowercases the NAME only
(callers pass an already lowercased query), then applies the first
matching rule: prefix 100; word-prefix 90 - 10*index; substring 50;
in-order subsequence 20; otherwise 0. -/
def getSearchScore (displayName query : List Char) : Int :=
  let name := lowerStr displayName
  if List.isPrefixOf query name then 100
  else
    match (splitWS name).findIdx? (fun w => List.isPrefixOf query w) with
    | some i => 90 - 10 * (i : Int)
    | none =>
      if strIncludes query name then 50
      else if greedySubseq name query then 20
      else 0

/-- Modelled from the claim's wording, for comparison with
`getSearchScore`: both name and query compared case-insensitively
(both lowercased), words split on whitespace runs, substring as
`List.IsInfix`, subsequence as `List.Sublist`. -/
def scoreMatchSpec (displayName query : List Char) : Int :=
  let n := lowerStr displayName
  let q := lowerStr query
  if List.IsPrefix q n then 100
  else
    match (splitWS n).findIdx? (fun w => decide (List.IsPrefix q w)) with
    | some i => 90 - 10 * (i : Int)
    | none =>
      if List.IsInfix q n then 50
      else if List.Sublist q n then 20
      else 0

/-- The `replace(/\s*\d+$/, '')` of groupParts: when the name ends in a
digit, drop the maximal trailing digit run together with the whitespace
run immediately before it (the regex matches nothing otherwise). -/
def stripNumSuffix (s : List Char) : List Char :=
  match s.reverse with
  | [] => s
  | c :: _ =>
    if isDigitChar c then
      ((s.reverse.dropWhile isDigitChar).dropWhile isWSChar).reverse
    else s

/-- JS `String.trim` (ASCII whitespace). -/
def trimStr (s : List Char) : List Char :=
  ((s.dropWhile isWSChar).reverse.dropWhile isWSChar).reverse

/-- Base name of a part display name: strip the trailing number suffix,
then trim. -/
def baseNameOf (name : List Char) : List Char := trimStr (stripNumSuffix name)

/-- JS `key.endsWith('s')`. -/
def endsWithS (l : List Char) : Bool :=
  match l.getLast? with
  | some c => c = 's'
  | none => false

/-- A part group (`{displayName, ids, description}`). -/
structure PartGroup where
  displayName : List Char
  ids : List String
  description : String
deriving DecidableEq, Repr

/-- Body of the first groupParts loop: create the group on first sight of a
base name (display name initialized to the base name, description from
that first part), then push the part id. -/
def addPart (gs : List (List Char × PartGroup)) (p : PartDef) :
    List (List Char × PartGroup) :=
  let b := baseNameOf p.name.toList
  if (aget gs b).isSome then
    mapUpd gs b (fun g => { g with ids := g.ids ++ [p.id] })
  else gs ++ [(b, { displayName := b, ids := [p.id], description := p.description })]

/-- Second groupParts loop: pluralize the display name of any group with
more than one member whose KEY does not already end in an s. -/
def pluralizeGroup (key : List Char) (g : PartGroup) : PartGroup :=
  if 1 < g.ids.length ∧ endsWithS key = false then
    { g with displayName := key ++ ['s'] }
  else g

/-- groupParts (src/viewer.js lines 324-353), as the insertion-ordered map
the JS `Map` holds. -/
def groupParts (parts : List PartDef) : List (List Char × PartGroup) :=
  (parts.foldl addPart []).map (fun e => (e.1, pluralizeGroup e.1 e.2))

/-- The parts of a list whose base name is a given string, in input order
(spec-side helper for stating what groupParts accumulates). -/
def partsMatching (b : List Char) : List PartDef → List PartDef
  | [] => []
  | p :: rest =>
    if baseNameOf p.name.toList = b then p :: partsMatching b rest
    else partsMatching b rest

/-- The group the claim predicts for a base name from its matching parts:
ids in input order, description from the first such part, display name
pluralized when the group has more than one member and the base name does
not already end in s. -/
def groupFor (b : List Char) : List PartDef → Option PartGroup
  | [] => none
  | p :: rest => some
      { displayName :=
          if 1 < (p :: rest).length ∧ endsWithS b = false then b ++ ['s'] else b
        ids := (p :: rest).map PartDef.id
        description := p.description }

/-! ## Concrete states used by witnesses and counterexamples -/

/-- A one-mesh scene graph: part "p" at (1,2,3) with a plain material. -/
def meshP : Mesh :=
  { name := "p", position := ⟨1, 2, 3⟩, material := ⟨7, none⟩, originalMaterial := none }

/-- Configuration giving part "p" an expand offset of (10, -, 5). -/
def cfgP : Config :=
  { parts := none, expandConfig := some [("p", ⟨some 10, none, some 5⟩)] }

/-- Viewer after loading the one-part model. -/
def vLoaded : Viewer := loadModel initViewer 1 [meshP] cfgP

/-- vLoaded after a sidebar highlight of "p". -/
def vSide : Viewer := highlightPart vLoaded ["p"]

/-- vSide after the slider is dragged to 0. -/
def vSideZero : Viewer := setExplosionAmount vSide 0

/-- vLoaded after a scene click on "p". -/
def vTog : Viewer := togglePartHighlight vLoaded "p"

/-- vTog after the slider is dragged to 0. -/
def vTogZero : Viewer := setExplosionAmount vTog 0

/-- vSide after the user re-enables auto-rotation. -/
def vRotOn : Viewer := setAutoRotate vSide true

/-- A second one-mesh scene graph ("q") and a second configuration. -/
def meshQ : Mesh :=
  { name := "q", position := ⟨0, 0, 0⟩, material := ⟨8, none⟩, originalMaterial := none }

/-- Configuration of the second model (expand config present but empty). -/
def cfgQ : Config := { parts := none, expandConfig := some [] }

/-- vSide after a second successful loadModel (model reload). -/
def vReload : Viewer := loadModel vSide 2 [meshQ] cfgQ

/-- The four-legs part list of the grouping example. -/
def legsParts : List PartDef :=
  [ { id := "leg1", name := "Leg 1", description := "d" }
  , { id := "leg2", name := "Leg 2", description := "d" }
  , { id := "leg3", name := "Leg 3", description := "d" }
  , { id := "leg4", name := "Leg 4", description := "d" } ]

/-! ## Helper lemmas: association lists and JS sets -/

theorem aget_mapUpd_self {κ β : Type} [DecidableEq κ] (m : List (κ × β)) (k : κ)
    (f : β → β) : aget (mapUpd m k f) k = (aget m k).map f := by
  induction m with
  | nil => rfl
  | cons e rest ih =>
    by_cases h : e.1 = k <;> simp [mapUpd, aget, h, ih]

theorem aget_mapUpd_ne {κ β : Type} [DecidableEq κ] (m : List (κ × β)) (k k2 : κ)
    (f : β → β) (h : k2 ≠ k) : aget (mapUpd m k f) k2 = aget m k2 := by
  have hk : ¬ k = k2 := fun hh => h hh.symm
  induction m with
  | nil => rfl
  | cons e rest ih =>
    by_cases he : e.1 = k
    · simp [mapUpd, aget, he, hk, ih]
    · by_cases he2 : e.1 = k2 <;> simp [mapUpd, aget, he, he2, h, ih]

theorem aget_setEntry_ne {κ β : Type} [DecidableEq κ] (m : List (κ × β)) (k k2 : κ)
    (v : β) (h : k2 ≠ k) :
    aget (m.map (fun e => if e.1 = k then (k, v) else e)) k2 = aget m k2 := by
  have hk : ¬ k = k2 := fun hh => h hh.symm
  induction m with
  | nil => rfl
  | cons e rest ih =>
    by_cases he : e.1 = k
    · simp [aget, he, hk, ih]
    · by_cases he2 : e.1 = k2 <;> simp [aget, he, he2, h, ih]

theorem aget_append {κ β : Type} [DecidableEq κ] (l1 l2 : List (κ × β)) (k : κ) :
    aget (l1 ++ l2) k = match aget l1 k with
      | some v => some v
      | none => aget l2 k := by
  induction l1 with
  | nil => rfl
  | cons e rest ih =>
    by_cases he : e.1 = k <;> simp [aget, he, ih]

theorem aget_mapSet_self {κ β : Type} [DecidableEq κ] (m : List (κ × β)) (k : κ)
    (v : β) : aget (mapSet m k v) k = some v := by
  unfold mapSet
  by_cases h : (aget m k).isSome
  · simp only [h, if_true]
    induction m with
    | nil => simp [aget] at h
    | cons e rest ih =>
      by_cases he : e.1 = k
      · simp [aget, he]
      · simp only [aget, he, if_false] at h
        simpa [aget, he] using ih h
  · simp only [h, Bool.false_eq_true, if_false]
    rw [aget_append]
    have hn : aget m k = none := Option.not_isSome_iff_eq_none.mp h
    simp [hn, aget]

theorem aget_mapSet_ne {κ β : Type} [DecidableEq κ] (m : List (κ × β)) (k k2 : κ)
    (v : β) (h : k2 ≠ k) : aget (mapSet m k v) k2 = aget m k2 := by
  unfold mapSet
  by_cases hs : (aget m k).isSome
  · simp only [hs, if_true]
    exact aget_setEntry_ne m k k2 v h
  · simp only [hs, Bool.false_eq_true, if_false]
    rw [aget_append]
    have hk : ¬ k = k2 := fun hh => h hh.symm
    cases hg : aget m k2 <;> simp [aget, hk, hg]

theorem aget_mapDel_self {κ β : Type} [DecidableEq κ] (m : List (κ × β)) (k : κ) :
    aget (mapDel m k) k = none := by
  induction m with
  | nil => rfl
  | cons e rest ih =>
    by_cases he : e.1 = k <;> simp [mapDel, aget, he, ih]

theorem aget_mapDel_ne {κ β : Type} [DecidableEq κ] (m : List (κ × β)) (k k2 : κ)
    (h : k2 ≠ k) : aget (mapDel m k) k2 = aget m k2 := by
  have hk : ¬ k = k2 := fun hh => h hh.symm
  induction m with
  | nil => rfl
  | cons e rest ih =>
    by_cases he : e.1 = k
    · simp [mapDel, aget, he, hk, ih]
    · by_cases he2 : e.1 = k2 <;> simp [mapDel, aget, he, he2, h, ih]

theorem mem_setAdd {α : Type} [DecidableEq α] (s : List α) (x a : α) :
    a ∈ setAdd s x ↔ a ∈ s ∨ a = x := by
  unfold setAdd
  by_cases h : x ∈ s
  · simp only [h, if_true]
    constructor
    · exact Or.inl
    · rintro (hm | rfl)
      · exact hm
      · exact h
  · simp [h]

theorem mem_setDel {α : Type} [DecidableEq α] (s : List α) (x a : α) :
    a ∈ setDel s x ↔ a ∈ s ∧ a ≠ x := by
  induction s with
  | nil => simp [setDel]
  | cons y rest ih =>
    by_cases hy : y = x
    · subst hy
      simp only [setDel, if_true, ih, List.mem_cons]
      constructor
      · rintro ⟨hm, hne⟩; exact ⟨Or.inr hm, hne⟩
      · rintro ⟨hm | hm, hne⟩
        · exact absurd hm hne
        · exact ⟨hm, hne⟩
    · simp only [setDel, hy, if_false, List.mem_cons, ih]
      constructor
      · rintro (rfl | ⟨hm, hne⟩)
        · exact ⟨Or.inl rfl, fun hh => hy hh⟩
        · exact ⟨Or.inr hm, hne⟩
      · rintro ⟨hm | hm, hne⟩
        · exact Or.inl hm
        · exact Or.inr ⟨hm, hne⟩

theorem setDel_of_not_mem {α : Type} [DecidableEq α] (s : List α) (x : α)
    (h : x ∉ s) : setDel s x = s := by
  induction s with
  | nil => rfl
  | cons y rest ih =>
    have hy : ¬ y = x := fun hh => h (hh ▸ List.mem_cons_self y rest)
    have hr : x ∉ rest := fun hh => h (List.mem_cons_of_mem y hh)
    simp [setDel, hy, ih hr]

theorem aget_map_entry {κ β : Type} [DecidableEq κ] (m : List (κ × β))
    (g : κ → β → β) (k : κ) :
    aget (m.map (fun e => (e.1, g e.1 e.2))) k = (aget m k).map (g k) := by
  induction m with
  | nil => rfl
  | cons e rest ih =>
    by_cases he : e.1 = k
    · subst he; simp [aget, ih]
    · simp [aget, he, ih]

theorem mapDel_of_aget_none {κ β : Type} [DecidableEq κ] (m : List (κ × β)) (k : κ)
    (h : aget m k = none) : mapDel m k = m := by
  induction m with
  | nil => rfl
  | cons e rest ih =>
    by_cases he : e.1 = k
    · simp [aget, he] at h
    · simp only [aget, he, if_false] at h
      simp [mapDel, he, ih h]

/-! ## Helper lemmas: clearAllHighlights -/

theorem clearStep_eq (w : Viewer) (x : String) (hne : w.highlightedParts ≠ []) :
    clearStep w x = { w with
      domLabels := match aget w.partLabels x with
        | some l => listErase w.domLabels l
        | none => w.domLabels
      partLabels := mapDel w.partLabels x } := by
  have hcond : ¬ (w.sidebarHighlightedParts = [] ∧ w.highlightedParts = []) :=
    fun hh => hne hh.2
  unfold clearStep unhighlightPartOnMeshArg
  rw [if_neg hcond, ite_self]
  unfold removePartLabel
  cases hl : aget w.partLabels x with
  | some l => simp only [hl]
  | none => simp only [hl, mapDel_of_aget_none w.partLabels x hl]

theorem foldl_clearStep_fields (xs : List String) (w : Viewer)
    (hne : w.highlightedParts ≠ []) :
    ((xs.foldl clearStep w).parts = w.parts) ∧
    ((xs.foldl clearStep w).highlightedParts = w.highlightedParts) ∧
    ((xs.foldl clearStep w).sidebarHighlightedParts = w.sidebarHighlightedParts) ∧
    ((xs.foldl clearStep w).controlsAutoRotate = w.controlsAutoRotate) ∧
    ((xs.foldl clearStep w).autoRotateEnabled = w.autoRotateEnabled) ∧
    ((xs.foldl clearStep w).isExpanded = w.isExpanded) ∧
    ((xs.foldl clearStep w).systemConfig = w.systemConfig) ∧
    (∀ k, aget (xs.foldl clearStep w).partLabels k =
      if k ∈ xs then none else aget w.partLabels k) := by
  induction xs generalizing w with
  | nil =>
    refine ⟨rfl, rfl, rfl, rfl, rfl, rfl, rfl, ?_⟩
    intro k; simp
  | cons x rest ih =>
    have hstep := clearStep_eq w x hne
    have hne2 : (clearStep w x).highlightedParts ≠ [] := by rw [hstep]; exact hne
    have ihw := ih (clearStep w x) hne2
    simp only [List.foldl_cons]
    refine ⟨?_, ?_, ?_, ?_, ?_, ?_, ?_, ?_⟩
    · rw [ihw.1, hstep]
    · rw [ihw.2.1, hstep]
    · rw [ihw.2.2.1, hstep]
    · rw [ihw.2.2.2.1, hstep]
    · rw [ihw.2.2.2.2.1, hstep]
    · rw [ihw.2.2.2.2.2.1, hstep]
    · rw [ihw.2.2.2.2.2.2.1, hstep]
    · intro k
      rw [ihw.2.2.2.2.2.2.2 k, hstep]
      by_cases hk : k = x
      · subst hk
        by_cases hmem : k ∈ rest <;> simp [hmem, aget_mapDel_self]
      · by_cases hmem : k ∈ rest <;>
          simp [hmem, hk, aget_mapDel_ne w.partLabels x k hk]

theorem clearAll_highlighted (v : Viewer) :
    (clearAllHighlights v).highlightedParts = [] := rfl

theorem clearAll_parts (v : Viewer) : (clearAllHighlights v).parts = v.parts := by
  unfold clearAllHighlights
  by_cases hne : v.highlightedParts = []
  · rw [hne]; rfl
  · exact (foldl_clearStep_fields v.highlightedParts v hne).1

theorem clearAll_sidebar (v : Viewer) :
    (clearAllHighlights v).sidebarHighlightedParts = v.sidebarHighlightedParts := by
  unfold clearAllHighlights
  by_cases hne : v.highlightedParts = []
  · rw [hne]; rfl
  · exact (foldl_clearStep_fields v.highlightedParts v hne).2.2.1

theorem clearAll_controls (v : Viewer) :
    (clearAllHighlights v).controlsAutoRotate = v.controlsAutoRotate := by
  unfold clearAllHighlights
  by_cases hne : v.highlightedParts = []
  · rw [hne]; rfl
  · exact (foldl_clearStep_fields v.highlightedParts v hne).2.2.2.1

theorem clearAll_partLabels (v : Viewer) (k : String) :
    aget (clearAllHighlights v).partLabels k =
      if k ∈ v.highlightedParts then none else aget v.partLabels k := by
  unfold clearAllHighlights
  by_cases hne : v.highlightedParts = []
  · rw [hne]; simp
  · exact (foldl_clearStep_fields v.highlightedParts v hne).2.2.2.2.2.2.2 k

/-! ## Helper lemmas: setExplosionAmount -/

theorem aget_explodeMap (ps : List (String × Mesh)) (ec : List (String × Offset))
    (ops : List (String × Vec3)) (factor : ℚ) (name : String) :
    aget (ps.map (fun e =>
      match aget ec e.1, aget ops e.1 with
      | some off, some orig => (e.1, { e.2 with position := explodedPos orig off factor })
      | _, _ => e)) name
    = (aget ps name).map (fun m =>
      match aget ec name, aget ops name with
      | some off, some orig => { m with position := explodedPos orig off factor }
      | _, _ => m) := by
  induction ps with
  | nil => rfl
  | cons e rest ih =>
    rcases e with ⟨n, m⟩
    by_cases he : n = name
    · subst he
      cases h1 : aget ec n <;> cases h2 : aget ops n <;>
        simp [aget, h1, h2]
    · cases h1 : aget ec n <;> cases h2 : aget ops n <;>
        simp [aget, h1, h2, he, ih]

theorem setExplosion_parts (v : Viewer) (percent : ℚ) (ec : List (String × Offset))
    (hec : expandCfg v = some ec) (name : String) :
    aget (setExplosionAmount v percent).parts name =
      (aget v.parts name).map (fun m =>
        match aget ec name, aget v.originalPositions name with
        | some off, some orig => { m with position := explodedPos orig off (percent / 100) }
        | _, _ => m) := by
  unfold setExplosionAmount
  rw [hec]
  by_cases h0 : percent = 0
  · simp only [h0, if_true, if_pos]
    rw [clearAll_parts]
    exact aget_explodeMap v.parts ec v.originalPositions (0 / 100) name
  · simp only [h0, if_false, ite_false]
    exact aget_explodeMap v.parts ec v.originalPositions (percent / 100) name

/-! ## Claim theorems -/

/-- C1: for every percent in [0,100], setExplosionAmount(percent) puts every
part having both a configured expand offset and a recorded rest position at
rest + offset * (percent/100) componentwise (missing axes contributing 0,
see explodedPos), while a part without a configured offset that sits at its
rest position stays there. -/
theorem C1_setExplosionAmount_positions (v : Viewer) (percent : ℚ)
    (h0 : 0 ≤ percent) (h100 : percent ≤ 100) :
    (∀ name m ec off orig,
      expandCfg v = some ec →
      aget ec name = some off →
      aget v.originalPositions name = some orig →
      aget v.parts name = some m →
      aget (setExplosionAmount v percent).parts name =
        some { m with position := explodedPos orig off (percent / 100) }) ∧
    (∀ name m orig,
      (expandCfg v).bind (fun ec => aget ec name) = none →
      aget v.originalPositions name = some orig →
      aget v.parts name = some m →
      m.position = orig →
      ∃ m2, aget (setExplosionAmount v percent).parts name = some m2 ∧
        m2.position = orig) := by
  constructor
  · intro name m ec off orig hec hoff horig hpart
    have hform := setExplosion_parts v percent ec hec name
    rw [hpart] at hform
    simp only [Option.map_some'] at hform
    rw [hoff, horig] at hform
    exact hform
  · intro name m orig hnone horig hpart hrest
    cases hc : expandCfg v with
    | none =>
      have hid : setExplosionAmount v percent = v := by
        unfold setExplosionAmount; rw [hc]
      exact ⟨m, by rw [hid, hpart], hrest⟩
    | some ec =>
      rw [hc] at hnone
      have hnone2 : aget ec name = none := hnone
      have hform := setExplosion_parts v percent ec hc name
      rw [hpart] at hform
      simp only [Option.map_some'] at hform
      rw [hnone2] at hform
      exact ⟨m, hform, hrest⟩

/-- Witness for C1 at a concrete state: part "p" of the loaded model has
offset (10,-,5) and rest (1,2,3); the slider at 50 puts it at the
interpolated position. -/
theorem C1_setExplosionAmount_positions_witness :
    (0:ℚ) ≤ 50 ∧
    aget (setExplosionAmount vLoaded 50).parts "p" =
      some { meshP with
        position := explodedPos ⟨1, 2, 3⟩ ⟨some 10, none, some 5⟩ (50 / 100) } :=
  ⟨by decide,
    (C1_setExplosionAmount_positions vLoaded 50 (by decide) (by decide)).1
      "p" meshP [("p", ⟨some 10, none, some 5⟩)] ⟨some 10, none, some 5⟩ ⟨1, 2, 3⟩
      (by decide) (by decide) (by decide) (by decide)⟩

/-- C2 counterexample: from the reachable state with part "p" highlighted
via the sidebar, setExplosionAmount(0) leaves "p" in the sidebar provenance
set and its label alive, so the effective HighlightSet is NOT empty and a
live label remains. -/
theorem C2_counterexample :
    vSideZero.sidebarHighlightedParts = ["p"] ∧
    (aget vSideZero.partLabels "p").isSome = true := by
  constructor <;> decide

/-- C2 amended: when an expand config is present, setExplosionAmount(0)
empties only the scene-click provenance set and removes only the labels of
parts in that set; the sidebar provenance set is untouched and labels of
parts outside the scene-click set survive (with no expand config the call
changes nothing at all). -/
theorem C2_setExplosionZero_partial_clear (v : Viewer)
    (ec : List (String × Offset)) (hec : expandCfg v = some ec) :
    (setExplosionAmount v 0).highlightedParts = [] ∧
    (setExplosionAmount v 0).sidebarHighlightedParts = v.sidebarHighlightedParts ∧
    ∀ k, aget (setExplosionAmount v 0).partLabels k =
      if k ∈ v.highlightedParts then none else aget v.partLabels k := by
  have hred : setExplosionAmount v 0 =
      (if (0:ℚ) = 0 then
        clearAllHighlights
          { v with
            isExpanded := decide ((0:ℚ) < 0)
            controlsAutoRotate := v.autoRotateEnabled
            parts := v.parts.map (fun e =>
              match aget ec e.1, aget v.originalPositions e.1 with
              | some off, some orig =>
                (e.1, { e.2 with position := explodedPos orig off (0 / 100) })
              | _, _ => e) }
      else
        { v with
          isExpanded := decide ((0:ℚ) < 0)
          controlsAutoRotate := v.autoRotateEnabled
          parts := v.parts.map (fun e =>
            match aget ec e.1, aget v.originalPositions e.1 with
            | some off, some orig =>
              (e.1, { e.2 with position := explodedPos orig off (0 / 100) })
            | _, _ => e) }) := by
    unfold setExplosionAmount
    rw [hec]
  rw [hred, if_pos (show (0:ℚ) = 0 from rfl)]
  exact ⟨clearAll_highlighted _, clearAll_sidebar _, fun k => clearAll_partLabels _ k⟩

/-- Witness for C2 (amended) at the concrete sidebar-highlighted state. -/
theorem C2_setExplosionZero_partial_clear_witness :
    expandCfg vSide = some [("p", ⟨some 10, none, some 5⟩)] ∧
    (setExplosionAmount vSide 0).highlightedParts = [] :=
  ⟨by decide,
    (C2_setExplosionZero_partial_clear vSide [("p", ⟨some 10, none, some 5⟩)]
      (by decide)).1⟩

/-- C3: evaluation at the failing input.  After a scene click highlights
part "p" and the slider collapses to 0, both provenance sets are empty yet
the part still carries the highlight material: clearAllHighlights hands the
MESH OBJECT to unhighlightPart, whose lookups by part-id string all miss,
so the original material is never restored, violating the claimed
invariant (rendered highlighted iff member of some provenance set). -/
theorem C3_invariant_broken_at_collapse :
    (aget vTogZero.parts "p").map Mesh.material = some (highlightedMat ⟨7, none⟩) ∧
    vTogZero.highlightedParts = [] ∧
    vTogZero.sidebarHighlightedParts = [] := by
  refine ⟨?_, ?_, ?_⟩ <;> decide

/-- C4 counterexample: vRotOn is reachable (loadModel, highlightPart,
setAutoRotate true); part "p" is still sidebar-highlighted, yet live
rotation is on, so live rotation is not (preference AND no highlight), and
setAutoRotate(true) while highlighted does turn live rotation on. -/
theorem C4_counterexample :
    vRotOn.controlsAutoRotate = true ∧
    vRotOn.sidebarHighlightedParts = ["p"] ∧
    vRotOn.autoRotateEnabled = true := by
  refine ⟨?_, ?_, ?_⟩ <;> decide

/-- C4 amended: setAutoRotate(enabled) stores the preference AND sets the
live rotation flag to it unconditionally, whatever the current highlight
state is; the claimed derived invariant does not hold. -/
theorem C4_setAutoRotate_unconditional (v : Viewer) (b : Bool) :
    (setAutoRotate v b).controlsAutoRotate = b ∧
    (setAutoRotate v b).autoRotateEnabled = b :=
  ⟨rfl, rfl⟩

/-- C10: highlightPart ends by executing controls.autoRotate = false after
its forEach loop, so live auto-rotation is switched off for every argument
(including an empty list and ids that resolve to no mesh), regardless of
the stored preference. -/
theorem C10_highlightPart_always_stops_rotation (v : Viewer) (ids : List String) :
    (highlightPart v ids).controlsAutoRotate = false := rfl

/-! ## Helper lemmas: highlight and toggle paths -/

theorem applyHighlightMesh_idem (m : Mesh) :
    applyHighlightMesh (applyHighlightMesh m) = applyHighlightMesh m := rfl

theorem setAdd_idem {α : Type} [DecidableEq α] (s : List α) (x : α) :
    setAdd (setAdd s x) x = setAdd s x := by
  have hx : x ∈ setAdd s x := (mem_setAdd s x x).mpr (Or.inr rfl)
  unfold setAdd at hx ⊢
  rw [if_pos hx]

theorem removePartLabel_parts (v : Viewer) (x : String) :
    (removePartLabel v x).parts = v.parts := by
  unfold removePartLabel
  cases aget v.partLabels x <;> rfl

theorem removePartLabel_highlighted (v : Viewer) (x : String) :
    (removePartLabel v x).highlightedParts = v.highlightedParts := by
  unfold removePartLabel
  cases aget v.partLabels x <;> rfl

theorem removePartLabel_sidebar (v : Viewer) (x : String) :
    (removePartLabel v x).sidebarHighlightedParts = v.sidebarHighlightedParts := by
  unfold removePartLabel
  cases aget v.partLabels x <;> rfl

theorem highlightPartStep_some (v : Viewer) (id : String)
    (hm : (aget v.parts id).isSome) :
    highlightPartStep v id = { v with
      parts := mapUpd v.parts id applyHighlightMesh
      sidebarHighlightedParts := setAdd v.sidebarHighlightedParts id
      partLabels := mapSet v.partLabels id v.nextLabelId
      domLabels := v.domLabels ++ [v.nextLabelId]
      nextLabelId := v.nextLabelId + 1 } := by
  unfold highlightPartStep updateMeshAt createPartLabel
  cases hx : aget v.parts id with
  | some m => rfl
  | none => rw [hx] at hm; simp at hm

theorem highlightPart_singleton (v : Viewer) (id : String) :
    highlightPart v [id] =
      { highlightPartStep v id with controlsAutoRotate := false } := rfl

theorem toggle_on_fields (v : Viewer) (p : String)
    (hcond : p ∈ v.highlightedParts ∨ p ∈ v.sidebarHighlightedParts) :
    ((togglePartHighlight v p).parts = mapUpd v.parts p restoreMat) ∧
    ((togglePartHighlight v p).highlightedParts = setDel v.highlightedParts p) ∧
    ((togglePartHighlight v p).sidebarHighlightedParts =
      setDel v.sidebarHighlightedParts p) := by
  unfold togglePartHighlight updateMeshAt
  rw [if_pos hcond]
  refine ⟨?_, ?_, ?_⟩
  · simp only [removePartLabel_parts]
  · simp only [removePartLabel_highlighted]
  · simp only [removePartLabel_sidebar]

theorem toggle_off_eq (v : Viewer) (p : String)
    (hcond : ¬ (p ∈ v.highlightedParts ∨ p ∈ v.sidebarHighlightedParts)) :
    togglePartHighlight v p = { v with
      parts := mapUpd v.parts p applyHighlightMesh
      highlightedParts := setAdd v.highlightedParts p
      partLabels := mapSet v.partLabels p v.nextLabelId
      domLabels := v.domLabels ++ [v.nextLabelId]
      nextLabelId := v.nextLabelId + 1 } := by
  unfold togglePartHighlight updateMeshAt createPartLabel
  rw [if_neg hcond]

/-- C5 counterexample: calling highlightPart(["p"]) twice from the loaded
state leaves two label elements attached to the viewer container (the
first is orphaned by the overwritten tracking entry), while a single call
leaves one, so the resulting visible states differ. -/
theorem C5_counterexample :
    (highlightPart (highlightPart vLoaded ["p"]) ["p"]).domLabels.length = 2 ∧
    (highlightPart vLoaded ["p"]).domLabels.length = 1 := by
  constructor <;> decide

/-- C5 amended: for an id that resolves to a mesh, a second
highlightPart([id]) call changes neither the part's material, nor the
provenance sets, nor which parts have a tracked label, nor the rotation
flag — but it appends one more (orphaned) label element to the DOM. -/
theorem C5_highlightPart_almost_idempotent (v : Viewer) (id : String) (m : Mesh)
    (hm : aget v.parts id = some m) :
    ((aget (highlightPart (highlightPart v [id]) [id]).parts id).map Mesh.material
      = (aget (highlightPart v [id]).parts id).map Mesh.material) ∧
    ((highlightPart (highlightPart v [id]) [id]).sidebarHighlightedParts
      = (highlightPart v [id]).sidebarHighlightedParts) ∧
    ((highlightPart (highlightPart v [id]) [id]).highlightedParts
      = (highlightPart v [id]).highlightedParts) ∧
    (∀ k, (aget (highlightPart (highlightPart v [id]) [id]).partLabels k).isSome
      = (aget (highlightPart v [id]).partLabels k).isSome) ∧
    ((highlightPart (highlightPart v [id]) [id]).controlsAutoRotate
      = (highlightPart v [id]).controlsAutoRotate) ∧
    ((highlightPart (highlightPart v [id]) [id]).domLabels.length
      = (highlightPart v [id]).domLabels.length + 1) := by
  have hsome : (aget v.parts id).isSome := by rw [hm]; rfl
  have e1 : highlightPart v [id] =
      { highlightPartStep v id with controlsAutoRotate := false } :=
    highlightPart_singleton v id
  rw [highlightPartStep_some v id hsome] at e1
  have hsome2 : (aget (highlightPart v [id]).parts id).isSome := by
    rw [e1]
    show (aget (mapUpd v.parts id applyHighlightMesh) id).isSome
    rw [aget_mapUpd_self, hm]
    rfl
  have e2 : highlightPart (highlightPart v [id]) [id] =
      { highlightPartStep (highlightPart v [id]) id with controlsAutoRotate := false } :=
    highlightPart_singleton _ id
  rw [highlightPartStep_some _ id hsome2] at e2
  refine ⟨?_, ?_, ?_, ?_, ?_, ?_⟩
  · rw [e2, e1]
    show (aget (mapUpd (mapUpd v.parts id applyHighlightMesh) id applyHighlightMesh) id).map
        Mesh.material = (aget (mapUpd v.parts id applyHighlightMesh) id).map Mesh.material
    rw [aget_mapUpd_self, aget_mapUpd_self, hm]
    simp [applyHighlightMesh_idem]
  · rw [e2, e1]
    show setAdd (setAdd v.sidebarHighlightedParts id) id = setAdd v.sidebarHighlightedParts id
    exact setAdd_idem _ _
  · rw [e2, e1]
  · intro k
    rw [e2, e1]
    show (aget (mapSet (mapSet v.partLabels id v.nextLabelId) id _) k).isSome
      = (aget (mapSet v.partLabels id v.nextLabelId) k).isSome
    by_cases hk : k = id
    · subst hk
      rw [aget_mapSet_self, aget_mapSet_self]
      rfl
    · rw [aget_mapSet_ne _ _ _ _ hk, aget_mapSet_ne _ _ _ _ hk]
  · rw [e2, e1]
  · rw [e2, e1]
    show ((v.domLabels ++ [v.nextLabelId]) ++ [_]).length
      = (v.domLabels ++ [v.nextLabelId]).length + 1
    simp

/-- Witness for C5 (amended) at the loaded one-part state. -/
theorem C5_highlightPart_almost_idempotent_witness :
    aget vLoaded.parts "p" = some meshP ∧
    (highlightPart (highlightPart vLoaded ["p"]) ["p"]).sidebarHighlightedParts
      = (highlightPart vLoaded ["p"]).sidebarHighlightedParts :=
  ⟨by decide, (C5_highlightPart_almost_idempotent vLoaded "p" meshP (by decide)).2.1⟩

/-- C6 counterexample: part "p" is sidebar-highlighted in vSide; after two
scene-click toggles its sidebar-set membership is gone (it migrated to the
scene-click set), so membership in both provenance sets is NOT returned to
its pre-call values. -/
theorem C6_counterexample :
    ("p" ∈ vSide.sidebarHighlightedParts ∧
      "p" ∉ (togglePartHighlight (togglePartHighlight vSide "p") "p").sidebarHighlightedParts) ∧
    ("p" ∉ vSide.highlightedParts ∧
      "p" ∈ (togglePartHighlight (togglePartHighlight vSide "p") "p").highlightedParts) := by
  refine ⟨⟨?_, ?_⟩, ?_, ?_⟩ <;> decide

/-- C6 amended: for a part whose cached material state is consistent with
its highlight status — while in a provenance set it carries the highlight
clone of the cached original, and while in neither set it has no cache or
a cache equal to its live material — toggling twice restores the visible
material, always leaves the part out of the sidebar provenance set, and
puts it in the scene-click set exactly when it was effectively highlighted
before; so material and both memberships return to their pre-call values
precisely when the part was not sidebar-highlighted.  The consistency
condition is genuinely needed: clearAllHighlights fails to restore
materials (it passes mesh objects where unhighlightPart expects id
strings), leaving a scene-click highlighted part with a stuck highlight
material and empty sets, and from such a state the second toggle installs
the cached plain original instead of the stuck highlight clone that was
visible before the two calls. -/
theorem C6_toggle_twice (v : Viewer) (p : String) (m : Mesh)
    (hm : aget v.parts p = some m)
    (hcons : (p ∈ v.highlightedParts ∨ p ∈ v.sidebarHighlightedParts) →
      ∃ om, m.originalMaterial = some om ∧ m.material = highlightedMat om)
    (hclean : (¬ (p ∈ v.highlightedParts ∨ p ∈ v.sidebarHighlightedParts)) →
      m.originalMaterial = none ∨ m.originalMaterial = some m.material) :
    ((aget (togglePartHighlight (togglePartHighlight v p) p).parts p).map Mesh.material
      = some m.material) ∧
    ((p ∈ (togglePartHighlight (togglePartHighlight v p) p).highlightedParts)
      ↔ (p ∈ v.highlightedParts ∨ p ∈ v.sidebarHighlightedParts)) ∧
    (p ∉ (togglePartHighlight (togglePartHighlight v p) p).sidebarHighlightedParts) := by
  by_cases hc : p ∈ v.highlightedParts ∨ p ∈ v.sidebarHighlightedParts
  · -- initially effectively highlighted: first toggle unhighlights
    obtain ⟨om, hom, hmat⟩ := hcons hc
    obtain ⟨hp1, hh1, hs1⟩ := toggle_on_fields v p hc
    have hnot1 : ¬ (p ∈ (togglePartHighlight v p).highlightedParts ∨
        p ∈ (togglePartHighlight v p).sidebarHighlightedParts) := by
      rw [hh1, hs1]
      rintro (hin | hin) <;> exact ((mem_setDel _ _ _).mp hin).2 rfl
    have e2 := toggle_off_eq (togglePartHighlight v p) p hnot1
    constructor
    · rw [e2]
      show (aget (mapUpd (togglePartHighlight v p).parts p applyHighlightMesh) p).map
        Mesh.material = some m.material
      rw [aget_mapUpd_self, hp1, aget_mapUpd_self, hm]
      simp only [Option.map_some']
      have : restoreMat m = { m with material := om } := by
        unfold restoreMat; rw [hom]
      rw [this]
      simp [applyHighlightMesh, highlightedMat, hmat, hom]
    constructor
    · rw [e2]
      show p ∈ setAdd (togglePartHighlight v p).highlightedParts p ↔ _
      rw [mem_setAdd]
      exact ⟨fun _ => hc, fun _ => Or.inr rfl⟩

    · rw [e2]
      show p ∉ (togglePartHighlight v p).sidebarHighlightedParts
      rw [hs1]
      intro hin
      exact ((mem_setDel _ _ _).mp hin).2 rfl
  · -- initially unhighlighted: first toggle highlights
    have e1 := toggle_off_eq v p hc
    have hin1 : p ∈ (togglePartHighlight v p).highlightedParts ∨
        p ∈ (togglePartHighlight v p).sidebarHighlightedParts := by
      rw [e1]
      exact Or.inl ((mem_setAdd _ _ _).mpr (Or.inr rfl))
    obtain ⟨hp2, hh2, hs2⟩ := toggle_on_fields (togglePartHighlight v p) p hin1
    have hommat : (applyHighlightMesh m).originalMaterial = some m.material := by
      rcases hclean hc with hnone | hsame
      · unfold applyHighlightMesh
        rw [hnone]
        rfl
      · unfold applyHighlightMesh
        rw [hsame]
        rfl
    constructor
    · rw [hp2, e1]
      show (aget (mapUpd (mapUpd v.parts p applyHighlightMesh) p restoreMat) p).map
        Mesh.material = some m.material
      rw [aget_mapUpd_self, aget_mapUpd_self, hm]
      simp only [Option.map_some']
      unfold restoreMat
      rw [hommat]
    constructor
    · rw [hh2, e1]
      show p ∈ setDel (setAdd v.highlightedParts p) p ↔ _
      constructor
      · intro hin
        exact absurd rfl ((mem_setDel _ _ _).mp hin).2
      · intro hin
        exact absurd hin hc
    · rw [hs2, e1]
      show p ∉ setDel v.sidebarHighlightedParts p
      intro hin
      exact ((mem_setDel _ _ _).mp hin).2 rfl

/-- Witness for C6 (amended) at the loaded state, where "p" is in neither
provenance set and has no cached material. -/
theorem C6_toggle_twice_witness :
    aget vLoaded.parts "p" = some meshP ∧
    "p" ∉ (togglePartHighlight (togglePartHighlight vLoaded "p") "p").sidebarHighlightedParts :=
  ⟨by decide,
    (C6_toggle_twice vLoaded "p" meshP (by decide)
      (fun h => absurd h (by decide))
      (fun _ => Or.inl (by decide))).2.2⟩

/-! ## Helper lemmas: loadModel -/

theorem aget_mapSet_isSome {κ β : Type} [DecidableEq κ] (m : List (κ × β))
    (k k2 : κ) (v : β) (h : (aget m k2).isSome) :
    (aget (mapSet m k v) k2).isSome := by
  by_cases hk : k2 = k
  · subst hk
    rw [aget_mapSet_self]
    rfl
  · rw [aget_mapSet_ne m k k2 v hk]
    exact h

theorem loadStep_foldl (meshes : List Mesh) (w : Viewer) :
    ((meshes.foldl (fun w child =>
      { w with
        parts := mapSet w.parts child.name child
        originalPositions := mapSet w.originalPositions child.name child.position })
      w).highlightedParts = w.highlightedParts) ∧
    ((meshes.foldl (fun w child =>
      { w with
        parts := mapSet w.parts child.name child
        originalPositions := mapSet w.originalPositions child.name child.position })
      w).sidebarHighlightedParts = w.sidebarHighlightedParts) ∧
    ((meshes.foldl (fun w child =>
      { w with
        parts := mapSet w.parts child.name child
        originalPositions := mapSet w.originalPositions child.name child.position })
      w).partLabels = w.partLabels) ∧
    ((meshes.foldl (fun w child =>
      { w with
        parts := mapSet w.parts child.name child
        originalPositions := mapSet w.originalPositions child.name child.position })
      w).sceneModels = w.sceneModels) ∧
    ((meshes.foldl (fun w child =>
      { w with
        parts := mapSet w.parts child.name child
        originalPositions := mapSet w.originalPositions child.name child.position })
      w).model = w.model) ∧
    (∀ n, (aget w.parts n).isSome →
      (aget (meshes.foldl (fun w child =>
        { w with
          parts := mapSet w.parts child.name child
          originalPositions := mapSet w.originalPositions child.name child.position })
        w).parts n).isSome) := by
  induction meshes generalizing w with
  | nil => exact ⟨rfl, rfl, rfl, rfl, rfl, fun n h => h⟩
  | cons c rest ih =>
    simp only [List.foldl_cons]
    obtain ⟨i1, i2, i3, i4, i5, i6⟩ := ih
      { w with
        parts := mapSet w.parts c.name c
        originalPositions := mapSet w.originalPositions c.name c.position }
    refine ⟨i1, i2, i3, i4, i5, fun n h => i6 n ?_⟩
    exact aget_mapSet_isSome w.parts c.name n c h

/-- C9 counterexample: after highlighting "p" in the first model and then
successfully loading a second model (whose only node is "q"), the part
registry still resolves "p", the sidebar provenance set still holds "p",
and the label of "p" is still tracked — stale state from the prior model
survives the reload. -/
theorem C9_counterexample :
    (aget vReload.parts "p").isSome = true ∧
    vReload.sidebarHighlightedParts = ["p"] ∧
    (aget vReload.partLabels "p").isSome = true := by
  refine ⟨?_, ?_, ?_⟩ <;> decide

/-- C9 amended: a second successful loadModel leaves exactly one model in
the scene (the previous scene graph is removed), but it does NOT rebuild
the registries or clear interaction state: every previously resolvable
part id still resolves (old entries are only overwritten when the new
model reuses the name), and the highlight sets and tracked labels carry
over unchanged. -/
theorem C9_loadModel_reload (v : Viewer) (modelId : Nat) (meshes : List Mesh)
    (config : Config) (m0 : Nat)
    (hmodel : v.model = some m0) (hscene : v.sceneModels = [m0]) :
    ((loadModel v modelId meshes config).sceneModels = [modelId]) ∧
    ((loadModel v modelId meshes config).model = some modelId) ∧
    ((loadModel v modelId meshes config).highlightedParts = v.highlightedParts) ∧
    ((loadModel v modelId meshes config).sidebarHighlightedParts
      = v.sidebarHighlightedParts) ∧
    ((loadModel v modelId meshes config).partLabels = v.partLabels) ∧
    (∀ n, (aget v.parts n).isSome →
      (aget (loadModel v modelId meshes config).parts n).isSome) := by
  have herase : listErase v.sceneModels m0 = [] := by
    rw [hscene]
    simp [listErase]
  have hred : loadModel v modelId meshes config =
      meshes.foldl (fun w child =>
        { w with
          parts := mapSet w.parts child.name child
          originalPositions := mapSet w.originalPositions child.name child.position })
        { v with
          sceneModels := [modelId]
          model := some modelId
          systemConfig := some config } := by
    unfold loadModel
    rw [hmodel]
    dsimp only
    rw [herase]
    rfl
  rw [hred]
  obtain ⟨i1, i2, i3, i4, i5, i6⟩ := loadStep_foldl meshes
    { v with
      sceneModels := [modelId]
      model := some modelId
      systemConfig := some config }
  exact ⟨i4, i5, i1, i2, i3, fun n h => i6 n h⟩

/-- Witness for C9 (amended): reloading from the highlighted one-part state
leaves exactly the new model in the scene. -/
theorem C9_loadModel_reload_witness :
    vSide.model = some 1 ∧ vReload.sceneModels = [2] :=
  ⟨by decide,
    (C9_loadModel_reload vSide 2 [meshQ] cfgQ 1 (by decide) (by decide)).1⟩

/-! ## Helper lemmas: search scoring -/

theorem bool_eq_decide_of_iff {p : Prop} [Decidable p] (b : Bool)
    (h : b = true ↔ p) : b = decide p := by
  by_cases hp : p
  · rw [decide_eq_true hp]
    exact h.mpr hp
  · rw [decide_eq_false hp]
    cases hb : b
    · rfl
    · exact absurd (h.mp hb) hp

theorem isPrefixOf_eq_decide (q w : List Char) :
    List.isPrefixOf q w = decide (List.IsPrefix q w) :=
  bool_eq_decide_of_iff _ List.isPrefixOf_iff_prefix

theorem strIncludes_iff (q n : List Char) :
    strIncludes q n = true ↔ List.IsInfix q n := by
  induction n with
  | nil =>
    simp [strIncludes, List.isPrefixOf_iff_prefix, List.prefix_nil, List.infix_nil]
  | cons c rest ih =>
    simp only [strIncludes, Bool.or_eq_true, ih, List.isPrefixOf_iff_prefix,
      List.infix_cons_iff]

theorem greedySubseq_iff (n q : List Char) :
    greedySubseq n q = true ↔ List.Sublist q n := by
  induction n generalizing q with
  | nil =>
    cases q with
    | nil => simp [greedySubseq]
    | cons a as => simp [greedySubseq, List.sublist_nil]
  | cons c cs ih =>
    cases q with
    | nil => simp [greedySubseq, List.nil_sublist]
    | cons a as =>
      by_cases hca : c = a
      · subst hca
        show (if c = c then greedySubseq cs as else greedySubseq cs (c :: as)) = true ↔ _
        rw [if_pos rfl, ih, List.cons_sublist_cons]
      · show (if c = a then greedySubseq cs as else greedySubseq cs (a :: as)) = true ↔ _
        rw [if_neg hca, ih]
        constructor
        · exact fun h => h.cons c
        · intro h
          rcases List.sublist_cons_iff.mp h with h2 | ⟨r, hr, hrs⟩
          · exact h2
          · injection hr with h1 h2
            exact absurd h1.symm hca

/-- C7 counterexample: the query is NOT compared case-insensitively — only
the name is lowercased — so the uppercase query "LEG" scores 0 against
name "Leg" while the claimed case-insensitive comparison requires the same
score as the lowercase query "leg", namely 100 (starts-with). -/
theorem C7_counterexample :
    getSearchScore ("Leg".toList) ("LEG".toList) = 0 ∧
    getSearchScore ("Leg".toList) ("leg".toList) = 100 := by
  constructor <;> decide

/-- C7 amended: for every name and every query that is already lowercase
(as the callers guarantee by lowercasing the input), getSearchScore
follows the claimed first-applicable-rule cascade — prefix 100, first
whitespace-run-delimited word (JS split semantics, empty fragments
included) starting with the query 90 - 10*index, substring 50, in-order
subsequence 20, else 0 — stated against the rule-level reformulation
scoreMatchSpec that lowercases both sides. -/
theorem C7_getSearchScore_rules (dn q : List Char) (hq : lowerStr q = q) :
    getSearchScore dn q = scoreMatchSpec dn q := by
  simp only [getSearchScore, scoreMatchSpec]
  rw [hq]
  rw [isPrefixOf_eq_decide q (lowerStr dn)]
  rw [show (fun w => List.isPrefixOf q w) = (fun w => decide (List.IsPrefix q w)) from
    funext fun w => isPrefixOf_eq_decide q w]
  rw [bool_eq_decide_of_iff (strIncludes q (lowerStr dn)) (strIncludes_iff q (lowerStr dn))]
  rw [bool_eq_decide_of_iff (greedySubseq (lowerStr dn) q) (greedySubseq_iff (lowerStr dn) q)]
  simp only [decide_eq_true_eq]

/-- Witness for C7 (amended) at the spec's word-prefix example. -/
theorem C7_getSearchScore_rules_witness :
    lowerStr ("felt".toList) = "felt".toList ∧
    getSearchScore ("Protective Felt".toList) ("felt".toList)
      = scoreMatchSpec ("Protective Felt".toList) ("felt".toList) :=
  ⟨by decide, C7_getSearchScore_rules ("Protective Felt".toList) ("felt".toList) (by decide)⟩

/-! ## Helper lemmas: groupParts -/

theorem aget_foldl_addPart (parts : List PartDef)
    (gs : List (List Char × PartGroup)) (b : List Char) :
    aget (parts.foldl addPart gs) b =
      match aget gs b, partsMatching b parts with
      | none, [] => none
      | none, p :: rest =>
        some { displayName := b, ids := (p :: rest).map PartDef.id,
               description := p.description }
      | some g, ms => some { g with ids := g.ids ++ ms.map PartDef.id } := by
  induction parts generalizing gs with
  | nil =>
    simp only [List.foldl_nil]
    cases hg : aget gs b with
    | none => rfl
    | some g => simp [partsMatching]
  | cons p rest ih =>
    simp only [List.foldl_cons]
    rw [ih (addPart gs p)]
    by_cases hb : baseNameOf p.name.toList = b
    · have hmatch : partsMatching b (p :: rest) = p :: partsMatching b rest := by
        show (if baseNameOf p.name.toList = b then p :: partsMatching b rest
          else partsMatching b rest) = _
        rw [if_pos hb]
      cases hs : aget gs b with
      | some g =>
        have hsome : (aget gs (baseNameOf p.name.toList)).isSome := by
          rw [hb, hs]; rfl
        have hgs2 : aget (addPart gs p) b = some { g with ids := g.ids ++ [p.id] } := by
          unfold addPart
          rw [if_pos hsome, hb]
          rw [aget_mapUpd_self, hs]
          rfl
        rw [hgs2, hmatch]
        cases hrest : partsMatching b rest with
        | nil => simp
        | cons p2 r2 => simp
      | none =>
        have hnone : ¬ (aget gs (baseNameOf p.name.toList)).isSome := by
          rw [hb, hs]; simp
        have hgs2 : aget (addPart gs p) b =
            some { displayName := baseNameOf p.name.toList, ids := [p.id],
                   description := p.description } := by
          unfold addPart
          rw [if_neg hnone, aget_append, hs, hb]
          simp [aget]
        rw [hgs2, hmatch, hb]
        cases hrest : partsMatching b rest with
        | nil => simp
        | cons p2 r2 => simp
    · have hmatch : partsMatching b (p :: rest) = partsMatching b rest := by
        show (if baseNameOf p.name.toList = b then p :: partsMatching b rest
          else partsMatching b rest) = _
        rw [if_neg hb]
      have hbne : b ≠ baseNameOf p.name.toList := fun hh => hb hh.symm
      have hgs2 : aget (addPart gs p) b = aget gs b := by
        unfold addPart
        by_cases hsome : (aget gs (baseNameOf p.name.toList)).isSome
        · rw [if_pos hsome]
          exact aget_mapUpd_ne gs (baseNameOf p.name.toList) b _ hbne
        · rw [if_neg hsome, aget_append]
          cases hg : aget gs b with
          | some g => rfl
          | none =>
            simp only [aget]
            rw [if_neg hb]
      rw [hgs2, hmatch]

/-- C8: groupParts accumulates part ids per base name (the display name
stripped of one trailing whitespace-and-digits run, then trimmed) in
first-seen input order, pluralizing the display name of every group with
more than one member whose base name does not already end in s — and on
the four "Leg n" parts it produces exactly one group "Legs" with the ids
in input order. -/
theorem C8_groupParts_characterization :
    (∀ parts b, aget (groupParts parts) b = groupFor b (partsMatching b parts)) ∧
    groupParts legsParts =
      [("Leg".toList,
        { displayName := "Legs".toList, ids := ["leg1", "leg2", "leg3", "leg4"],
          description := "d" })] := by
  constructor
  · intro parts b
    unfold groupParts
    rw [aget_map_entry (parts.foldl addPart []) pluralizeGroup b]
    rw [aget_foldl_addPart parts [] b]
    cases hm : partsMatching b parts with
    | nil => rfl
    | cons p rest =>
      show some (pluralizeGroup b
        { displayName := b, ids := (p :: rest).map PartDef.id,
          description := p.description }) = groupFor b (p :: rest)
      unfold pluralizeGroup groupFor
      dsimp only
      rw [List.length_map]
      by_cases hcond : 1 < (p :: rest).length ∧ endsWithS b = false
      · rw [if_pos hcond, if_pos hcond]
      · rw [if_neg hcond, if_neg hcond]
  · decide

/-- Witness for C8: the general characterization applied to the example
list at base name "Leg". -/
theorem C8_groupParts_characterization_witness :
    aget (groupParts legsParts) ("Leg".toList)
      = groupFor ("Leg".toList) (partsMatching ("Leg".toList) legsParts) :=
  C8_groupParts_characterization.1 legsParts ("Leg".toList)
